import Mathlib

/-!
Verification development for the kiruna container-orchestration daemon.

The definitions below are shallow embeddings of the JavaScript sources
(lib/Application.js, lib/Container.js, lib/Health.js, lib/Service.js,
lib/Utils.js and the Configuration/DockerWrapper modules).  Interactions with
the container engine are modelled by passing the results the engine returns
as explicit inputs; callback pipelines become sequential pure code; thrown
errors become Except/Option values.
-/

namespace Kiruna

/-- Result of one engine (docker) call, as seen through DockerWrapper:
either a value, or an error whose only inspected decoration is the
noSuchContainer flag that DockerWrapper adds for HTTP 404 (see
DockerWrapper, function named with a leading underscore, statusCode 404). -/
inductive EngRes (α : Type) where
  | ok (a : α)
  | err (noSuchContainer : Bool)
  deriving DecidableEq, Repr

/-! ## Host-port splitting (lib/Service.js SplitHostPort, and the
method of the same behaviour in src/unnamed/part_001) -/

/-- A JavaScript value appearing as a host-port specification in the
manifest: a number, a string, or anything else. -/
inductive JsVal where
  | num (n : Nat)
  | str (s : String)
  | other
  deriving DecidableEq, Repr

/-- Result of SplitHostPort: a port binding object (HostIp present only when
the function sets it), or the input passed through unchanged (the final
else branch of the source returns the value itself). -/
inductive SplitResult where
  | binding (HostIp : Option String) (HostPort : String)
  | passthrough (v : JsVal)
  deriving DecidableEq, Repr

/-- SplitHostPort as written in lib/Service.js lines 232-252 (identical to
the private method in src/unnamed/part_001 lines 274-294): a number becomes
its decimal string as HostPort; a string is split at the first occurrence of
a colon when that occurrence is at a positive index, otherwise the whole
string becomes HostPort; other values are returned unchanged.  Note that
this variant never fills in a default HostIp. -/
def splitHostPort : JsVal → SplitResult
  | .num n => .binding none (toString n)
  | .str s =>
      match s.data.findIdx? (fun a => a = ':') with
      | some i =>
          if 0 < i then
            .binding (some (String.mk (s.data.take i))) (String.mk (s.data.drop (i + 1)))
          else .binding none s
      | none => .binding none s
  | v => .passthrough v

/-! ## stopAndRemoveContainer (lib/Application.js lines 327-387) -/

/-- The fields of an inspect payload that stopAndRemoveContainer reads. -/
structure InspectInfo where
  Running : Bool
  Name : String
  deriving DecidableEq, Repr

/-- Observable outcome of one Application.stopAndRemoveContainer call:
whether stop/remove were issued to the engine, and the error handed to the
caller (none on success; some ns records the noSuchContainer flag of the
surfaced error). -/
structure StopRemoveTrace where
  stopCalled : Bool
  removeCalled : Bool
  error : Option Bool
  deriving DecidableEq, Repr

/-- First block of the async.series in stopAndRemoveContainer: inspect, and
stop when the inspected state is Running.  Returns (stop issued, error
surfaced to the series). -/
def stopStep (i1 : EngRes InspectInfo) (stopRes : EngRes Unit) : Bool × Option Bool :=
  match i1 with
  | .err ns => if ns then (false, none) else (false, some ns)
  | .ok d =>
      if d.Running then
        match stopRes with
        | .err ns => if ns then (true, none) else (true, some ns)
        | .ok _ => (true, none)
      else (false, none)

/-- Second block: re-inspect and remove.  Returns (remove issued, error). -/
def removeStep (i2 : EngRes InspectInfo) (removeRes : EngRes Unit) : Bool × Option Bool :=
  match i2 with
  | .err ns => if ns then (false, none) else (false, some ns)
  | .ok _ =>
      match removeRes with
      | .err ns => if ns then (true, none) else (true, some ns)
      | .ok _ => (true, none)

/-- Application.prototype.stopAndRemoveContainer, lib/Application.js lines
327-387: run the stop block, then (only when it reported no error, as
async.series does) the remove block. -/
def stopAndRemoveContainer (i1 : EngRes InspectInfo) (stopRes : EngRes Unit)
    (i2 : EngRes InspectInfo) (removeRes : EngRes Unit) : StopRemoveTrace :=
  let s := stopStep i1 stopRes
  match s.2 with
  | some e => ⟨s.1, false, some e⟩
  | none =>
      let r := removeStep i2 removeRes
      ⟨s.1, r.1, r.2⟩

/-- An engine result that stopAndRemoveContainer tolerates: a success, or an
error flagged noSuchContainer. -/
def benign {α : Type} : EngRes α → Prop
  | .ok _ => True
  | .err ns => ns = true

/-- The first series block finishes without surfacing an error. -/
def step1Clean (i1 : EngRes InspectInfo) (stopRes : EngRes Unit) : Prop :=
  benign i1 ∧ ∀ d, i1 = .ok d → d.Running = true → benign stopRes

/-! ## Container health watch (lib/Container.js lines 11-13 and 115-203) -/

/-- LOW_WATCH_TIMEOUT, lib/Container.js line 11 (milliseconds). -/
def LOW_WATCH_TIMEOUT : Nat := 250

/-- WATCH_TIMEOUT, lib/Container.js line 12 (milliseconds). -/
def WATCH_TIMEOUT : Nat := 15000

/-- MAX_HEALTH_FAILURES, lib/Container.js line 13. -/
def MAX_HEALTH_FAILURES : Nat := 4

/-- The mutable per-runner state read and written by one watch tick. -/
structure CState where
  started : Bool
  stopped : Bool
  stopping : Bool
  healthFailures : Nat
  watchTimeout : Nat
  deriving DecidableEq, Repr

/-- What the inspect at the top of a tick returned: an engine error (with
its noSuchContainer flag), or a payload whose data.State && data.State.Running
evaluates to the given boolean. -/
inductive InspectOutcome where
  | err (noSuchContainer : Bool)
  | ok (running : Bool)
  deriving DecidableEq, Repr

/-- Observable effects of one _checkHealth tick. -/
structure TickResult where
  state : CState
  emitStarted : Bool
  emitStopped : Bool
  stopRequested : Bool
  attachRequested : Bool
  registerRequested : Bool
  deriving DecidableEq, Repr

/-- Container.prototype._checkHealth, lib/Container.js lines 115-203, as a
transition on the runner state.  Inputs are the inspect outcome, the health
verdict delivered by Health.check, and whether the engine stop call (issued
only on the budget-exhausted branch) returns an error; the source ignores
both that error and the error of _performRegistration.  started/stopped are
edge-triggered: emitStarted/emitStopped are true only on the tick that
flips the corresponding bit. -/
def checkHealth (s : CState) (insp : InspectOutcome) (healthy : Bool)
    (stopErr : Bool) : TickResult :=
  match insp with
  | .err _ =>
      ⟨{ s with stopped := true }, false, !s.stopped, false, false, false⟩
  | .ok false =>
      ⟨{ s with stopped := true }, false, !s.stopped, false, true, false⟩
  | .ok true =>
      if healthy then
        ⟨{ s with healthFailures := 0, watchTimeout := WATCH_TIMEOUT, started := true },
          !s.started, false, false, false, true⟩
      else if !s.started then
        ⟨s, false, false, false, false, false⟩
      else if s.healthFailures < MAX_HEALTH_FAILURES then
        ⟨{ s with healthFailures := s.healthFailures + 1, watchTimeout := LOW_WATCH_TIMEOUT },
          false, false, false, false, false⟩
      else
        ⟨{ s with stopped := true }, false, !s.stopped, true, false, false⟩

/-- Iterate ticks that all see a running container and an unhealthy probe,
threading the state; the k-th tick may observe a distinct stop error. -/
def unhealthyTicks (s : CState) : List Bool → List TickResult
  | [] => []
  | e :: es =>
      let t := checkHealth s (.ok true) false e
      t :: unhealthyTicks t.state es

/-! ## Health probes (lib/Health.js lines 33-90, lib/Utils.js lines 88-95) -/

/-- The Http sub-object of a health test in the manifest.  Absent fields are
none; present-but-empty strings are kept so that JavaScript falsiness can be
modelled exactly. -/
structure HttpTest where
  Port : Option String
  Ip : String
  Path : Option String
  Protocol : Option String
  deriving DecidableEq, Repr

/-- One entry of the configured probe list: an object with an Http field, or
anything else (unknown probe kinds). -/
inductive HealthTest where
  | http (t : HttpTest)
  | unknown
  deriving DecidableEq, Repr

/-- The slice of an inspect payload read by the probes:
NetworkSettings.Ports as an association list from container port to the
array of binding objects, each with a HostPort string. -/
structure NetworkData where
  Ports : List (String × List String)
  deriving DecidableEq, Repr

/-- Utils.getHostPort, lib/Utils.js lines 88-95: look the container port up
in NetworkSettings.Ports and take the HostPort of the first binding; absent
key or empty array yields undefined (none). -/
def getHostPort (containerPort : String) (data : NetworkData) : Option String :=
  match data.Ports.lookup containerPort with
  | none => none
  | some bindings => bindings.head?

/-- JavaScript `a || b` for an optional string field: an absent or empty
string falls through to the default. -/
def jsOr (v : Option String) (dflt : String) : String :=
  match v with
  | some s => if s = "" then dflt else s
  | none => dflt

/-- Health.prototype._checkHttp, lib/Health.js lines 62-90.  The HTTP GET is
modelled by the oracle get, mapping the request url to an error or a status
code.  Result is (error surfaced to the iterator, isHealthy). -/
def checkHttp (t : HttpTest) (data : NetworkData)
    (get : String → Except Unit Nat) : Option Unit × Bool :=
  let containerPort := jsOr t.Port "80"
  let path := jsOr t.Path "/"
  let protocol := jsOr t.Protocol "http"
  match getHostPort containerPort data with
  | none => (none, false)
  | some hostPort =>
      if hostPort = "" then (none, false)
      else
        let url := protocol ++ "://" ++ t.Ip ++ ":" ++ hostPort ++ path
        match get url with
        | .error e => (some e, false)
        | .ok code => if code = 200 then (none, true) else (none, false)

/-- The iterator body of the async.each in Health.prototype.check: a test
with an Http field runs _checkHttp; any other test only logs and counts as
healthy. -/
def runTest (data : NetworkData) (get : String → Except Unit Nat) :
    HealthTest → Option Unit × Bool
  | .http t => checkHttp t data get
  | .unknown => (none, true)

/-- Health.prototype.check, lib/Health.js lines 33-54: run every configured
test through the iterator; the shared healthy flag ends up true exactly
when no test reported unhealthy.  The final callback receives (err, false)
when some test surfaced an error — the first such error in list order in
this sequential model — and (null, healthy) otherwise. -/
def healthCheck (tests : List HealthTest) (data : NetworkData)
    (get : String → Except Unit Nat) : Option Unit × Bool :=
  let results := tests.map (runTest data get)
  let firstErr := (results.filterMap (fun r => r.1)).head?
  let healthy := results.all (fun r => r.2)
  match firstErr with
  | some e => (some e, false)
  | none => (none, healthy)

/-- Success of a single probe in the sense of the specification: unknown
kinds pass; an Http probe succeeds when its host port resolves to a
non-empty string and the GET on the assembled url returns status 200. -/
def probeOk (data : NetworkData) (get : String → Except Unit Nat) :
    HealthTest → Bool
  | .unknown => true
  | .http t =>
      match getHostPort (jsOr t.Port "80") data with
      | none => false
      | some hostPort =>
          if hostPort = "" then false
          else
            match get (jsOr t.Protocol "http" ++ "://" ++ t.Ip ++ ":" ++ hostPort ++
                jsOr t.Path "/") with
            | .error _ => false
            | .ok code => code = 200

/-- An Http probe that resolves its host port but whose GET errors; only
these make Health.check surface an error. -/
def probeGetErrors (data : NetworkData) (get : String → Except Unit Nat) :
    HealthTest → Bool
  | .unknown => false
  | .http t =>
      match getHostPort (jsOr t.Port "80") data with
      | none => false
      | some hostPort =>
          if hostPort = "" then false
          else
            match get (jsOr t.Protocol "http" ++ "://" ++ t.Ip ++ ":" ++ hostPort ++
                jsOr t.Path "/") with
            | .error _ => true
            | .ok _ => false

/-! ## Service list construction and dependency sorting
(lib/Application.js lines 622-665; Service.prototype.dependsOn as in
src/unnamed/part_001 lines 30-34) -/

/-- The projection of one instantiated Service that the sorting loop reads:
its manifest key (unique per manifest) and its options.Dependencies entries,
raw strings which may carry an alias as depName:alias. -/
structure Svc where
  name : String
  deps : List String
  deriving DecidableEq, Repr

/-- Service.prototype.dependsOn (src/unnamed/part_001 lines 30-34, identical
in every variant): membership of the other service's name in
options.Dependencies by exact string comparison. -/
def Svc.dependsOn (s : Svc) (otherServiceName : String) : Bool :=
  s.deps.contains otherServiceName

/-- hasDependsOn inside _buildServices: does first still depend on a
service remaining in the list? -/
def hasDependsOn (first : Svc) (list : List Svc) : Bool :=
  list.any (fun x => first.dependsOn x.name)

/-- The while loop of _buildServices with the remaining iteration budget
explicit: take the head; if it still depends on a remaining entry, rotate
it to the tail, else append it to the sorted output; a non-empty list with
no budget left throws the circular-dependencies error. -/
def sortStep : List Svc → List Svc → Nat → Except String (List Svc)
  | [], sortedList, _ => .ok sortedList
  | _ :: _, _, 0 => .error "Circular dependencies"
  | first :: rest, sortedList, b + 1 =>
      if hasDependsOn first rest then sortStep (rest ++ [first]) sortedList b
      else sortStep rest (sortedList ++ [first]) b

/-- The sorting phase of Application.prototype._buildServices
(lib/Application.js lines 638-660) on the instantiated service list, in
manifest key order, with maxIterations = list.length * 2. -/
def buildServices (list : List Svc) : Except String (List Svc) :=
  sortStep list [] (list.length * 2)

/-- One exact-name dependency step between members of a service list:
a depends (by exact name) on the distinct service b of the list. -/
def depStep (out : List Svc) (a b : Svc) : Prop :=
  a ∈ out ∧ b ∈ out ∧ a.dependsOn b.name = true ∧ a.name ≠ b.name

/-! ## Variable expansion (lib/Utils.js lines 7 and 68-81;
Configuration.prototype.buildApplication, src/unnamed/part_000 lines 85-99) -/

/-- A character matched by the key group of variableRegEx
(letters case-insensitively, digits, underscore). -/
def isKeyChar (c : Char) : Bool :=
  (c ≥ 'a' && c ≤ 'z') || (c ≥ 'A' && c ≤ 'Z') || (c ≥ '0' && c ≤ '9') || c = '_'

/-- A whitespace character for the two optional whitespace groups of
variableRegEx (the ASCII part of the JavaScript whitespace class, which is
all that configuration files contain). -/
def isSpaceChar (c : Char) : Bool :=
  c = ' ' || c = '\t' || c = '\n' || c = '\r' || c = '\x0b' || c = '\x0c'

/-- Try to match variableRegEx at the head of the character list: a literal
dollar and open brace, optional whitespace, a non-empty key, optional
whitespace, a close brace.  Returns the key and the characters after the
match.  The regex engine's greedy matching coincides with this
maximal-munch parse because the key, whitespace and brace character
classes are pairwise disjoint. -/
def matchVariable (cs : List Char) : Option (List Char × List Char) :=
  match cs with
  | c1 :: c2 :: rest =>
      if c1 = '$' && c2 = '\x7b' then
        let afterWs := rest.dropWhile isSpaceChar
        let key := afterWs.takeWhile isKeyChar
        if key.isEmpty then none
        else
          match (afterWs.dropWhile isKeyChar).dropWhile isSpaceChar with
          | c3 :: r => if c3 = '\x7d' then some (key, r) else none
          | [] => none
      else none
  | _ => none

/-- Find the first variableRegEx match in the list, scanning left to
right: returns (text before the match, key, text after the match). -/
def findVariable : List Char → Option (List Char × List Char × List Char)
  | [] => none
  | c :: cs =>
      match matchVariable (c :: cs) with
      | some (key, rest) => some ([], key, rest)
      | none =>
          match findVariable cs with
          | some (before, key, rest) => some (c :: before, key, rest)
          | none => none

/-- The while loop of Utils.expandVariables (lib/Utils.js lines 68-81):
repeatedly find the first variable occurrence, splice getValue(key) in its
place and rescan from the start (the source resets variableRegEx.lastIndex
to 0 each round).  A throwing getValue is modelled as Except.  The source
loop is unbounded; fuel bounds it here and running out is reported as an
error — the theorems always supply ample fuel. -/
def expandLoop (getValue : String → Except String String) :
    Nat → List Char → Except String (List Char)
  | fuel, cs =>
      match findVariable cs with
      | none => .ok cs
      | some (before, key, rest) =>
          match fuel with
          | 0 => .error "out of fuel"
          | f + 1 =>
              match getValue (String.mk key) with
              | .error e => .error e
              | .ok v => expandLoop getValue f (before ++ v.data ++ rest)

/-- Utils.expandVariables on a string value. -/
def expandVariables (getValue : String → Except String String) (fuel : Nat)
    (value : String) : Except String String :=
  (expandLoop getValue fuel value.data).map String.mk

/-- The getValue closure of Configuration.prototype.buildApplication,
src/unnamed/part_000 lines 88-95: look the key up in process.env; a truthy
value is returned, anything else yields the empty string.  No error is
ever thrown and the manifest's Variables section is not consulted by this
variant. -/
def configGetValue (env : String → Option String) (key : String) :
    Except String String :=
  match env key with
  | some result => if result = "" then .ok "" else .ok result
  | none => .ok ""

/-! ## SHA-1 and container naming (lib/Utils.js lines 9-21;
Service.prototype._createContainerName, src/unnamed/part_001 lines 87-94) -/

/-- 2^32, the word modulus of SHA-1 arithmetic. -/
def w32 : Nat := 4294967296

/-- 32-bit left rotation of a word. -/
def rotl (n x : Nat) : Nat := (x * 2 ^ n + x / 2 ^ (32 - n)) % w32

/-- Lower-case hexadecimal digits, as produced by hash.digest('hex'). -/
def hexDigits : List Char :=
  ['0', '1', '2', '3', '4'] ++ ['5', '6', '7', '8', '9'] ++
    ['a', 'b', 'c'] ++ ['d', 'e', 'f']

/-- The hexadecimal digit of a value modulo 16. -/
def hexChar (n : Nat) : Char := hexDigits.getD (n % 16) '0'

/-- Exactly d hexadecimal characters of n, most significant first. -/
def toHexChars : Nat → Nat → List Char
  | 0, _ => []
  | d + 1, n => toHexChars d (n / 16) ++ [hexChar (n % 16)]

/-- Exactly d big-endian bytes of n. -/
def toBytesBE : Nat → Nat → List Nat
  | 0, _ => []
  | d + 1, n => toBytesBE d (n / 256) ++ [n % 256]

/-- Big-endian 32-bit words from a byte list whose length is a multiple
of four. -/
def toWords : List Nat → List Nat
  | b1 :: b2 :: b3 :: b4 :: rest =>
      (((b1 * 256 + b2) * 256 + b3) * 256 + b4) :: toWords rest
  | _ => []

/-- SHA-1 padding: a 0x80 byte, zeros to 56 mod 64, and the bit length as
eight big-endian bytes. -/
def sha1Pad (msg : List Nat) : List Nat :=
  let zeros := (119 - msg.length % 64) % 64
  msg ++ [128] ++ List.replicate zeros 0 ++ toBytesBE 8 (msg.length * 8)

/-- The five SHA-1 chaining words. -/
structure Sha1H where
  h0 : Nat
  h1 : Nat
  h2 : Nat
  h3 : Nat
  h4 : Nat

/-- Extend a 16-word block to the 80-word message schedule. -/
def extendSchedule : Nat → Array Nat → Array Nat
  | 0, arr => arr
  | n + 1, arr =>
      let i := arr.size
      let w := rotl 1 (((arr.getD (i - 3) 0 ^^^ arr.getD (i - 8) 0) ^^^
        arr.getD (i - 14) 0) ^^^ arr.getD (i - 16) 0)
      extendSchedule n (arr.push w)

/-- One SHA-1 round on the five working words. -/
def sha1Round (i w : Nat) (st : Nat × Nat × Nat × Nat × Nat) :
    Nat × Nat × Nat × Nat × Nat :=
  let a := st.1
  let b := st.2.1
  let c := st.2.2.1
  let d := st.2.2.2.1
  let e := st.2.2.2.2
  let f :=
    if i < 20 then (b &&& c) ||| ((b ^^^ 4294967295) &&& d)
    else if i < 40 then (b ^^^ c) ^^^ d
    else if i < 60 then ((b &&& c) ||| (b &&& d)) ||| (c &&& d)
    else (b ^^^ c) ^^^ d
  let k :=
    if i < 20 then 1518500249
    else if i < 40 then 1859775393
    else if i < 60 then 2400959708
    else 3395469782
  let temp := (rotl 5 a + f + e + k + w) % w32
  (temp, a, rotl 30 b, c, d)

/-- The 80 rounds over one block's schedule. -/
def sha1MainLoop : Nat → Nat → Array Nat → (Nat × Nat × Nat × Nat × Nat) →
    Nat × Nat × Nat × Nat × Nat
  | 0, _, _, st => st
  | n + 1, i, sched, st =>
      sha1MainLoop n (i + 1) sched (sha1Round i (sched.getD i 0) st)

/-- Compress one 16-word block into the chaining state. -/
def sha1Block (h : Sha1H) (ws : List Nat) : Sha1H :=
  let sched := extendSchedule 64 (Array.mk ws)
  let st := sha1MainLoop 80 0 sched (h.h0, h.h1, h.h2, h.h3, h.h4)
  ⟨(h.h0 + st.1) % w32, (h.h1 + st.2.1) % w32, (h.h2 + st.2.2.1) % w32,
    (h.h3 + st.2.2.2.1) % w32, (h.h4 + st.2.2.2.2) % w32⟩

/-- Fold the compression over all 16-word blocks (padded input). -/
def sha1Blocks (h : Sha1H) : List Nat → Sha1H
  | w0 :: w1 :: w2 :: w3 :: w4 :: w5 :: w6 :: w7 ::
    w8 :: w9 :: w10 :: w11 :: w12 :: w13 :: w14 :: w15 :: rest =>
      sha1Blocks (sha1Block h [w0, w1, w2, w3, w4, w5, w6, w7,
        w8, w9, w10, w11, w12, w13, w14, w15]) rest
  | _ => h

/-- SHA-1 of a byte list as a 40-character lower-case hex string, the
behaviour of crypto.createHash('sha1') with digest('hex'). -/
def sha1Hex (msg : List Nat) : String :=
  let h := sha1Blocks ⟨1732584193, 4023233417, 2562383102, 271733878, 3285377520⟩
    (toWords (sha1Pad msg))
  String.mk (toHexChars 8 h.h0 ++ toHexChars 8 h.h1 ++ toHexChars 8 h.h2 ++
    toHexChars 8 h.h3 ++ toHexChars 8 h.h4)

/-- UTF-8 bytes of a string; for the ASCII content of manifests the code
points are the bytes, which is what this development feeds to the hash. -/
def strBytes (s : String) : List Nat := s.data.map (fun c => c.toNat)

/-- Utils.hashString, lib/Utils.js lines 17-21. -/
def hashString (data : String) : String := sha1Hex (strBytes data)

/-- Utils.hashObject, lib/Utils.js lines 9-15, applied to the
JSON.stringify image of the object (passed here already serialized);
includePackageVersion appends a slash and the daemon's package version
before hashing. -/
def hashObject (serialized : String) (includePackageVersion : Bool)
    (pkgVersion : String) : String :=
  hashString (if includePackageVersion then serialized ++ "/" ++ pkgVersion
    else serialized)

/-- One replacement step of CONTAINER_NAME_REGEX = /[-:\/\.]/g. -/
def sanitizeChar (c : Char) : Char :=
  if c = '-' ∨ c = ':' ∨ c = '/' ∨ c = '.' then '_' else c

/-- String.replace with CONTAINER_NAME_REGEX and '_': every dash, colon,
slash and dot becomes an underscore. -/
def sanitizeName (s : String) : String := String.mk (s.data.map sanitizeChar)

/-- Service.prototype._createContainerName, src/unnamed/part_001 lines
87-94: hash the options (with the package version), truncate the hex hash
to 16 characters, sanitize name-dash-hash, put the CONTAINER_PREFIX
'kiruna_' in front and a double underscore behind, and append the replica
index when requested.  This variant has no '_kir' postfix. -/
def createContainerName (sname serialized pkgVersion : String) (index : Nat)
    (includeIndex : Bool) : String :=
  let hash0 := hashObject serialized true pkgVersion
  let hash := if 16 < hash0.length then String.mk (hash0.data.take 16) else hash0
  let namePart := "kiruna_" ++ sanitizeName (sname ++ "-" ++ hash) ++ "__"
  if includeIndex then namePart ++ toString index else namePart

/-! ## First-container links (src/unnamed/part_001 lines 40-45, 183-192,
299-312; Application.prototype.getService) -/

/-- The slice of a part_001 Service that link construction reads: name,
serialized options (for the name hash), the raw Dependencies entries
(absent or present), and the container ids collected so far. -/
structure P1Service where
  name : String
  serialized : String
  dependencies : Option (List String)
  containers : List String
  deriving DecidableEq, Repr

/-- Service.prototype._SplitDependencyIntoLink, src/unnamed/part_001 lines
299-312: split name[:internal-name] at the first colon when it sits at a
positive index; otherwise both components are the whole string. -/
def splitDependencyIntoLink (value : String) : String × String :=
  match value.data.findIdx? (fun a => a = ':') with
  | some i =>
      if 0 < i then
        (String.mk (value.data.take i), String.mk (value.data.drop (i + 1)))
      else (value, value)
  | none => (value, value)

/-- Application.prototype.getService: find the service by name, throwing
when absent. -/
def getService (services : List P1Service) (name : String) :
    Except String P1Service :=
  match services.find? (fun s => s.name = name) with
  | some s => .ok s
  | none => .error ("Service not found: " ++ name)

/-- Service.prototype.getFirstContainerId, src/unnamed/part_001 lines
40-45: throw when no containers exist; otherwise return the canonical
container name of replica index 0 — a computed name, not an
engine-reported id, whatever the containers list holds. -/
def getFirstContainerId (pkgVersion : String) (s : P1Service) :
    Except String String :=
  if s.containers.length = 0 then
    .error ("No containers exist in service: " ++ s.name)
  else .ok (createContainerName s.name s.serialized pkgVersion 0 true)

/-- The per-entry body of the Links construction inside _startContainer
(src/unnamed/part_001 lines 183-192): split the entry into name and alias,
resolve the dependency service, and link its first container id under the
alias; a thrown error aborts the construction. -/
def linkFor (services : List P1Service) (pkgVersion : String)
    (dependency : String) : Except String String :=
  let link := splitDependencyIntoLink dependency
  match getService services link.1 with
  | .error e => .error e
  | .ok service =>
      match getFirstContainerId pkgVersion service with
      | .error e => .error e
      | .ok containerId => .ok (containerId ++ ":" ++ link.2)

/-- The Links array as assembled by the iteration over
options.Dependencies. -/
def buildLinks (services : List P1Service) (pkgVersion : String)
    (s : P1Service) : Except String (Option (List String)) :=
  match s.dependencies with
  | none => .ok none
  | some deps => (deps.mapM (linkFor services pkgVersion)).map some

/-! ## Image cleanup (lib/Application.js lines 192-193 and 470-600) -/

/-- IMAGES_TO_KEEP, lib/Application.js line 193. -/
def IMAGES_TO_KEEP : Nat := 3

/-- The projection of a Service that image cleanup reads.  The accessors
getImageNameWithoutTag, getImageName and getTag are the evident readers of
the ServiceSpec fields (imageName = Image ++ ':' ++ Tag as in every
Service variant's constructor). -/
structure CSvc where
  name : String
  Image : String
  Tag : String
  deriving DecidableEq, Repr

/-- Service.getImageNameWithoutTag: the image reference without its tag. -/
def getImageNameWithoutTag (s : CSvc) : String := s.Image

/-- Service.getImageName: the full image:tag reference the service runs. -/
def getImageName (s : CSvc) : String := s.Image ++ ":" ++ s.Tag

/-- One engine image as returned by listImages: its RepoTags array. -/
structure EngImage where
  RepoTags : List String
  deriving DecidableEq, Repr

/-- JavaScript String.indexOf of a pattern over characters (none for -1). -/
def indexOfChars : List Char → List Char → Option Nat
  | l, pat =>
      if List.isPrefixOf pat l then some 0
      else
        match l with
        | [] => none
        | _ :: t => (indexOfChars t pat).map (· + 1)

/-- repoTag.indexOf(pat) === 0. -/
def strStarts (s pat : String) : Bool := List.isPrefixOf pat.data s.data

/-- repoTag.indexOf(pat) > 0. -/
def strIndexOfPos (s pat : String) : Bool :=
  match indexOfChars s.data pat.data with
  | some i => decide (0 < i)
  | none => false

/-- JavaScript String.lastIndexOf of a character (none for -1). -/
def lastIndexOfChar (s : String) (c : Char) : Option Nat :=
  match s.data.reverse.findIdx? (fun a => a = c) with
  | some k => some (s.data.length - 1 - k)
  | none => none

/-- The owner that getServiceForImage finds: a listed service, or the
daemon's own package image (the special __isMe pseudo-service). -/
inductive ImageOwner where
  | svc (s : CSvc)
  | me
  deriving DecidableEq, Repr

/-- The name under which entries of this owner are grouped. -/
def ownerName (pkgName : String) : ImageOwner → String
  | .svc s => s.name
  | .me => pkgName

/-- getServiceForImage, lib/Application.js lines 475-504: the first service
whose image-with-colon reference starts some RepoTag; failing that, a
RepoTag matching the daemon's own package image (exactly at the start, or
behind a slash at a positive index) selects the __isMe pseudo-service. -/
def getServiceForImage (services : List CSvc) (pkgName : String)
    (image : EngImage) : Option ImageOwner :=
  match services.find? (fun s =>
      image.RepoTags.any (fun repoTag =>
        strStarts repoTag (getImageNameWithoutTag s ++ ":"))) with
  | some s => some (.svc s)
  | none =>
      if image.RepoTags.any (fun repoTag =>
          strStarts repoTag (pkgName ++ ":") ||
          strIndexOfPos repoTag ("/" ++ pkgName ++ ":")) then
        some .me
      else none

/-- Split a character list at every dot. -/
def splitOnDot : List Char → List (List Char)
  | [] => [[]]
  | c :: t =>
      if c = '.' then [] :: splitOnDot t
      else
        match splitOnDot t with
        | h :: r => (c :: h) :: r
        | [] => [[c]]

/-- A numeric semver component: non-empty decimal digits with no leading
zero except a lone zero. -/
def numOkChars (t : List Char) : Bool :=
  !t.isEmpty &&
    t.all (fun c => decide ('0' ≤ c) && decide (c ≤ '9')) &&
    (!(t.head? = some '0') || decide (t = ['0']))

/-- The numeric value of a decimal digit list. -/
def numVal (t : List Char) : Nat :=
  t.foldl (fun n c => n * 10 + (c.toNat - 48)) 0

/-- node-semver modelled on plain release triples X.Y.Z of decimal digits
without spurious leading zeros — the only version shape this repository's
manifests tag images with; every other string is invalid, as in
semver.valid('latest') being null. -/
def parseSemver (s : String) : Option (Nat × Nat × Nat) :=
  match splitOnDot s.data with
  | [a, b, c] =>
      if numOkChars a && numOkChars b && numOkChars c then
        some (numVal a, numVal b, numVal c)
      else none
  | _ => none

/-- semver.valid as a predicate. -/
def semverValid (s : String) : Bool := (parseSemver s).isSome

/-- The ordering key of a valid tag. -/
def semverKey (s : String) : Nat × Nat × Nat := (parseSemver s).getD (0, 0, 0)

/-- Lexicographic strict order on version triples (semver.lt on plain
releases). -/
def tripleLt (a b : Nat × Nat × Nat) : Prop :=
  a.1 < b.1 ∨ (a.1 = b.1 ∧ (a.2.1 < b.2.1 ∨ (a.2.1 = b.2.1 ∧ a.2.2 < b.2.2)))

/-- The non-strict companion of tripleLt. -/
def tripleLe (a b : Nat × Nat × Nat) : Prop := ¬ tripleLt b a

/-- One collected entry: {image: RepoTags[0], tag}. -/
structure ImgEntry where
  image : String
  tag : String
  deriving DecidableEq, Repr

/-- The order the sort comparator of _cleanupImages establishes:
semantic-version ascending on the tags. -/
def entryLe (a b : ImgEntry) : Prop := tripleLe (semverKey a.tag) (semverKey b.tag)

instance : DecidableRel tripleLt := by
  intro a b
  unfold tripleLt
  infer_instance

instance : DecidableRel entryLe := by
  intro a b
  unfold entryLe tripleLe
  infer_instance

instance : IsTotal ImgEntry entryLe :=
  ⟨by intro a b; unfold entryLe tripleLe tripleLt; omega⟩

instance : IsTrans ImgEntry entryLe :=
  ⟨by intro a b c; unfold entryLe tripleLe tripleLt; omega⟩

/-- The getTag helper of _cleanupImages, lib/Application.js lines 507-516:
the first semver-valid (and truthy) tag among the RepoTags, each tag being
the text after the last colon of its RepoTag. -/
def imageTag (image : EngImage) : Option String :=
  (image.RepoTags.filterMap (fun repoTag =>
    match lastIndexOfChar repoTag ':' with
    | some i => some (String.mk (repoTag.data.drop (i + 1)))
    | none => none)).find? (fun tag => !(tag = "") && semverValid tag)

/-- isCurrentImage, lib/Application.js lines 519-530: for a listed service,
RepoTags containing its image:tag; for the daemon's own image, a RepoTag
equalling package:version or containing /package:version at a positive
index. -/
def isCurrentImage (pkgName pkgVersion : String) (image : EngImage) :
    ImageOwner → Bool
  | .svc s => image.RepoTags.contains (getImageName s)
  | .me =>
      image.RepoTags.any (fun repoTag =>
        repoTag = pkgName ++ ":" ++ pkgVersion ||
        strIndexOfPos repoTag ("/" ++ (pkgName ++ ":" ++ pkgVersion)))

/-- Append an entry to its key's group, keeping key insertion order (the
imageData object keyed by service name). -/
def addEntry (acc : List (String × List ImgEntry)) (key : String)
    (e : ImgEntry) : List (String × List ImgEntry) :=
  match acc with
  | [] => [(key, [e])]
  | (k, es) :: rest =>
      if k = key then (k, es ++ [e]) :: rest
      else (k, es) :: addEntry rest key e

/-- One image's contribution to imageData, lib/Application.js lines
537-553: skip images without a semver tag, without an owner, or currently
in use; otherwise record {RepoTags[0], tag} under the owner's name. -/
def collectStep (services : List CSvc) (pkgName pkgVersion : String)
    (acc : List (String × List ImgEntry)) (image : EngImage) :
    List (String × List ImgEntry) :=
  match imageTag image with
  | none => acc
  | some tag =>
      match getServiceForImage services pkgName image with
      | none => acc
      | some owner =>
          if isCurrentImage pkgName pkgVersion image owner then acc
          else addEntry acc (ownerName pkgName owner) ⟨image.RepoTags.headD "", tag⟩

/-- The imageData object after the collection pass. -/
def collectImageData (services : List CSvc) (pkgName pkgVersion : String)
    (images : List EngImage) : List (String × List ImgEntry) :=
  images.foldl (collectStep services pkgName pkgVersion) []

/-- Per-group pruning, lib/Application.js lines 556-570: groups of at most
IMAGES_TO_KEEP - 1 entries are dropped from the removal set; larger groups
are sorted semver-ascending and all but the last IMAGES_TO_KEEP - 1
entries are selected for removal. -/
def pruneGroup (es : List ImgEntry) : List ImgEntry :=
  if es.length ≤ IMAGES_TO_KEEP - 1 then []
  else (List.insertionSort entryLe es).take (es.length - (IMAGES_TO_KEEP - 1))

/-- The entries a group retains after cleanup (its complement of
pruneGroup). -/
def keptGroup (es : List ImgEntry) : List ImgEntry :=
  if es.length ≤ IMAGES_TO_KEEP - 1 then es
  else (List.insertionSort entryLe es).drop (es.length - (IMAGES_TO_KEEP - 1))

/-- The aggregated imageNamesToRemove of _cleanupImages, lib/Application.js
lines 556-577. -/
def imagesToRemove (services : List CSvc) (pkgName pkgVersion : String)
    (images : List EngImage) : List String :=
  (((collectImageData services pkgName pkgVersion images).map
    (fun g => pruneGroup g.2)).flatten).map (fun e => e.image)

/-- An entry recorded for some semver-tagged, owned, non-current image of
the listed images. -/
def isCandidate (services : List CSvc) (pkgName pkgVersion : String)
    (images : List EngImage) (e : ImgEntry) : Prop :=
  ∃ img ∈ images, img.RepoTags.headD "" = e.image ∧ imageTag img = some e.tag ∧
    ∃ o, getServiceForImage services pkgName img = some o ∧
      isCurrentImage pkgName pkgVersion img o = false

/-! ## Theorems -/

/-- Invariant of the sorting loop: the output never places a service before
one it depends on by exact name. -/
theorem sortStep_pairwise (b : Nat) (pending sortedList out : List Svc)
    (hps : List.Pairwise (fun a c => a.dependsOn c.name = false) sortedList)
    (hcross : ∀ a ∈ sortedList, ∀ p ∈ pending, a.dependsOn p.name = false)
    (h : sortStep pending sortedList b = .ok out) :
    List.Pairwise (fun a c => a.dependsOn c.name = false) out := by
  induction b generalizing pending sortedList with
  | zero =>
      cases pending with
      | nil => cases h; exact hps
      | cons first rest => cases h
  | succ b ih =>
      cases pending with
      | nil => cases h; exact hps
      | cons first rest =>
          by_cases hd : hasDependsOn first rest
          · rw [sortStep, if_pos hd] at h
            exact ih (rest ++ [first]) sortedList hps
              (fun a ha p hp => hcross a ha p (by
                rcases List.mem_append.mp hp with h1 | h1
                · exact List.mem_cons_of_mem _ h1
                · simp at h1; simp [h1])) h
          · rw [sortStep, if_neg hd] at h
            have hfirst : ∀ x ∈ rest, first.dependsOn x.name = false := by
              intro x hx
              by_contra hb
              exact hd (List.any_eq_true.mpr ⟨x, hx, by simpa using hb⟩)
            refine ih rest (sortedList ++ [first]) ?_ ?_ h
            · rw [List.pairwise_append]
              refine ⟨hps, by simp, ?_⟩
              intro a ha c hc
              have hc2 : c = first := by simpa using hc
              rw [hc2]
              exact hcross a ha first (by simp)
            · intro a ha p hp
              rcases List.mem_append.mp ha with h1 | h1
              · exact hcross a h1 p (List.mem_cons_of_mem _ hp)
              · simp at h1
                subst h1
                exact hfirst p hp

/-- A single exact-name dependency step forces a strictly earlier position
in a pairwise dependency-free-forward list. -/
theorem depStep_position (out : List Svc)
    (hp : List.Pairwise (fun a c => a.dependsOn c.name = false) out)
    (a c : Svc) (hR : depStep out a c) (i j : Fin out.length)
    (ha : out.get i = a) (hc : out.get j = c) : (j : Nat) < (i : Nat) := by
  rcases lt_trichotomy (i : Nat) (j : Nat) with hlt | heq | hgt
  · exfalso
    have h2 := (List.pairwise_iff_get.mp hp) i j hlt
    rw [ha, hc] at h2
    rw [hR.2.2.1] at h2
    exact absurd h2 (by decide)
  · exfalso
    have : i = j := Fin.ext heq
    subst this
    rw [ha] at hc
    exact hR.2.2.2 (by rw [hc])
  · exact hgt

/-- C1 (amended): for every manifest accepted by _buildServices, the
returned list is ordered by the exact-name dependency relation: whenever a
service reaches a distinct service of the list through a chain of
dependency entries that literally equal service names, the reached service
appears at a strictly earlier position.  (Aliased entries of the form
depName:alias are compared verbatim by dependsOn, so they impose no
ordering — see the counterexample — and a service's dependency on its own
name is tolerated by the loop.) -/
theorem c1_topological_order (list out : List Svc)
    (h : buildServices list = .ok out)
    (a c : Svc) (hreach : Relation.TransGen (depStep out) a c)
    (i j : Fin out.length) (ha : out.get i = a) (hc : out.get j = c) :
    (j : Nat) < (i : Nat) := by
  have hp : List.Pairwise (fun a c => a.dependsOn c.name = false) out :=
    sortStep_pairwise (list.length * 2) list [] out (by simp) (by simp) h
  induction hreach generalizing i j with
  | single hab =>
      exact depStep_position out hp _ _ hab i j ha hc
  | tail hab hbc ih =>
      rename_i b c'
      have hbmem : b ∈ out := hbc.1
      obtain ⟨k, hk⟩ := List.get_of_mem hbmem
      have h1 : (j : Nat) < (k : Nat) :=
        depStep_position out hp b c' hbc k j hk hc
      have h2 : (k : Nat) < (i : Nat) := ih i k ha hk
      exact Nat.lt_trans h1 h2

/-- C1 witness: a two-service manifest with an exact-name dependency; the
dependency sorts to the earlier position. -/
theorem c1_topological_order_witness :
    buildServices [⟨"web-app", ["etcd"]⟩, ⟨"etcd", []⟩] =
      .ok [⟨"etcd", []⟩, ⟨"web-app", ["etcd"]⟩] ∧
    (0 : Nat) < (1 : Nat) := by
  refine ⟨by rfl, ?_⟩
  exact c1_topological_order [⟨"web-app", ["etcd"]⟩, ⟨"etcd", []⟩]
    [⟨"etcd", []⟩, ⟨"web-app", ["etcd"]⟩] (by rfl)
    ⟨"web-app", ["etcd"]⟩ ⟨"etcd", []⟩
    (Relation.TransGen.single ⟨by decide, by decide, by decide, by decide⟩)
    ⟨1, by decide⟩ ⟨0, by decide⟩ (by decide) (by decide)

/-- C1 counterexample: an aliased dependency entry "etcd:db" does not make
dependsOn("etcd") true, so the manifest is accepted with web-app placed
before the service named etcd that its aliased entry refers to — the
claimed ordering for alias-form dependencies fails. -/
theorem c1_counterexample :
    buildServices [⟨"web-app", ["etcd:db"]⟩, ⟨"etcd", []⟩] =
      .ok [⟨"web-app", ["etcd:db"]⟩, ⟨"etcd", []⟩] := by rfl

/-- C2 (amended, positive direction): whenever the manifest contains a
dependency cycle through at least two distinct services — a non-empty set
of services each depending by exact name on a distinct successor inside
the set — the sorting loop of _buildServices throws the
circular-dependencies error. -/
theorem c2_cycle_error (list c : List Svc) (succ : Svc → Svc)
    (hne : c ≠ [])
    (hsub : ∀ x ∈ c, x ∈ list)
    (hcyc : ∀ x ∈ c, succ x ∈ c ∧ succ x ≠ x ∧ x.dependsOn (succ x).name = true) :
    buildServices list = .error "Circular dependencies" := by
  have main : ∀ b pending sortedList, (∀ x ∈ c, x ∈ pending) →
      sortStep pending sortedList b = .error "Circular dependencies" := by
    intro b
    induction b with
    | zero =>
        intro pending sortedList hin
        obtain ⟨x, hx⟩ := List.exists_mem_of_ne_nil c hne
        cases pending with
        | nil => exact absurd (hin x hx) (List.not_mem_nil x)
        | cons first rest => rfl
    | succ b ih =>
        intro pending sortedList hin
        obtain ⟨x, hx⟩ := List.exists_mem_of_ne_nil c hne
        cases pending with
        | nil => exact absurd (hin x hx) (List.not_mem_nil x)
        | cons first rest =>
            by_cases hd : hasDependsOn first rest
            · rw [sortStep, if_pos hd]
              refine ih (rest ++ [first]) sortedList ?_
              intro y hy
              rcases List.mem_cons.mp (hin y hy) with h1 | h1
              · subst h1; simp
              · exact List.mem_append_left _ h1
            · rw [sortStep, if_neg hd]
              refine ih rest (sortedList ++ [first]) ?_
              intro y hy
              rcases List.mem_cons.mp (hin y hy) with h1 | h1
              · exfalso
                subst h1
                obtain ⟨hs1, hs2, hs3⟩ := hcyc y hy
                have hsin : succ y ∈ y :: rest := hin (succ y) hs1
                rcases List.mem_cons.mp hsin with h2 | h2
                · exact hs2 h2
                · exact hd (List.any_eq_true.mpr ⟨succ y, h2, by simpa using hs3⟩)
              · exact h1
  exact main (list.length * 2) list [] hsub

/-- C2 witness: a two-service cycle (a ↔ b) raises the error. -/
theorem c2_cycle_error_witness :
    buildServices [⟨"a", ["b"]⟩, ⟨"b", ["a"]⟩] = .error "Circular dependencies" :=
  c2_cycle_error [⟨"a", ["b"]⟩, ⟨"b", ["a"]⟩] [⟨"a", ["b"]⟩, ⟨"b", ["a"]⟩]
    (fun x => if x.name = "a" then ⟨"b", ["a"]⟩ else ⟨"a", ["b"]⟩)
    (by decide) (by decide) (by decide)

/-- C2 counterexample: an acyclic four-service chain listed in worst-case
order needs more than 2·N = 8 rotate-to-tail iterations, so _buildServices
raises 'Circular dependencies' although no cycle exists — the second list
is a dependency-free-forward (topological) ordering of the same four
services, witnessing acyclicity. -/
theorem c2_counterexample :
    buildServices [⟨"a", ["b"]⟩, ⟨"b", ["c"]⟩, ⟨"c", ["d"]⟩, ⟨"d", []⟩] =
      .error "Circular dependencies" ∧
    List.Pairwise (fun x y : Svc => x.dependsOn y.name = false)
      [⟨"d", []⟩, ⟨"c", ["d"]⟩, ⟨"b", ["c"]⟩, ⟨"a", ["b"]⟩] ∧
    List.Perm [⟨"d", []⟩, ⟨"c", ["d"]⟩, ⟨"b", ["c"]⟩, ⟨"a", ["b"]⟩]
      [(⟨"a", ["b"]⟩ : Svc), ⟨"b", ["c"]⟩, ⟨"c", ["d"]⟩, ⟨"d", []⟩] := by
  refine ⟨by rfl, by decide, ?_⟩
  decide

/-- toHexChars produces exactly d characters. -/
theorem toHexChars_length (d : Nat) : ∀ n, (toHexChars d n).length = d := by
  induction d with
  | zero => intro n; rfl
  | succ d ih => intro n; simp [toHexChars, ih]

/-- The hexadecimal digit of any value is a hexadecimal digit. -/
theorem hexChar_mem (n : Nat) : hexChar n ∈ hexDigits := by
  have h : n % 16 < 16 := Nat.mod_lt _ (by norm_num)
  unfold hexChar
  set m := n % 16 with hm
  interval_cases m <;> decide

/-- Every character toHexChars produces is a hexadecimal digit. -/
theorem toHexChars_mem (d : Nat) : ∀ n, ∀ c ∈ toHexChars d n, c ∈ hexDigits := by
  induction d with
  | zero => intro n c hc; simp [toHexChars] at hc
  | succ d ih =>
      intro n c hc
      simp only [toHexChars, List.mem_append, List.mem_singleton] at hc
      rcases hc with hc | hc
      · exact ih _ c hc
      · subst hc; exact hexChar_mem _

/-- A SHA-1 hex digest has 40 characters. -/
theorem sha1Hex_length (msg : List Nat) : (sha1Hex msg).length = 40 := by
  unfold sha1Hex
  simp [String.length, toHexChars_length]

/-- A SHA-1 hex digest consists of hexadecimal digits. -/
theorem sha1Hex_mem (msg : List Nat) : ∀ c ∈ (sha1Hex msg).data, c ∈ hexDigits := by
  unfold sha1Hex
  intro c hc
  simp only [List.mem_append] at hc
  rcases hc with ((((hc | hc) | hc) | hc) | hc) <;> exact toHexChars_mem _ _ c hc

/-- sanitizeChar fixes hexadecimal digits. -/
theorem sanitizeChar_hex {c : Char} (h : c ∈ hexDigits) : sanitizeChar c = c := by
  fin_cases h <;> rfl

/-- sanitizeName distributes over concatenation. -/
theorem sanitizeName_append (a b : String) :
    sanitizeName (a ++ b) = sanitizeName a ++ sanitizeName b := by
  unfold sanitizeName
  rw [String.data_append, List.map_append]
  rfl

/-- sanitizeName fixes strings of hexadecimal digits. -/
theorem sanitizeName_of_hex (s : String) (h : ∀ c ∈ s.data, c ∈ hexDigits) :
    sanitizeName s = s := by
  unfold sanitizeName
  rw [List.map_congr_left (fun c hc => sanitizeChar_hex (h c hc))]
  cases s
  simp

/-- C4 (amended): the container name the cited variant creates for replica
index i is kiruna_ then the sanitized service name, an underscore (the
sanitized dash), the first 16 hex characters of SHA-1 over the serialized
spec, a slash and the daemon version, then a double underscore and the
index.  There is neither a '-' separator nor a '_kir' postfix. -/
theorem c4_container_name (sname serialized pkgVersion : String) (i : Nat) :
    (createContainerName sname serialized pkgVersion i true).data =
      "kiruna_".data ++ (sanitizeName sname).data ++ ['_'] ++
        (hashString (serialized ++ "/" ++ pkgVersion)).data.take 16 ++
        "__".data ++ (toString i).data := by
  have hlen : (hashString (serialized ++ "/" ++ pkgVersion)).length = 40 :=
    sha1Hex_length _
  have htake : ∀ c ∈ (hashString (serialized ++ "/" ++ pkgVersion)).data.take 16,
      c ∈ hexDigits :=
    fun c hc => sha1Hex_mem _ c (List.mem_of_mem_take hc)
  have hsan : sanitizeName (String.mk
      ((hashString (serialized ++ "/" ++ pkgVersion)).data.take 16)) =
      String.mk ((hashString (serialized ++ "/" ++ pkgVersion)).data.take 16) :=
    sanitizeName_of_hex _ htake
  simp only [createContainerName, hashObject, if_true]
  rw [if_pos (by rw [hlen]; norm_num)]
  rw [sanitizeName_append, sanitizeName_append, hsan]
  have hdash : sanitizeName "-" = "_" := rfl
  rw [hdash]
  simp [String.data_append]

set_option maxRecDepth 40000 in
/-- C4 counterexample: at a concrete spec the created name is
kiruna_web_0ab1d8dfcc5f6b63__0; a name of the claimed form
web-hash16__0_kir would end in _kir and start with web-, and this one
does neither, so the claimed shape is wrong for this variant. -/
theorem c4_counterexample :
    createContainerName "web" "\x7b\"Image\":\"img\",\"Tag\":\"1.0.0\"\x7d"
        "1.0.0" 0 true = "kiruna_web_0ab1d8dfcc5f6b63__0" ∧
    "kiruna_web_0ab1d8dfcc5f6b63__0" ≠ "web-0ab1d8dfcc5f6b63__0_kir" ∧
    "kiruna_web_0ab1d8dfcc5f6b63__0".data.getLast? = some '0' ∧
    "kiruna_web_0ab1d8dfcc5f6b63__0".data.take 4 = ['k', 'i', 'r', 'u'] := by
  refine ⟨by rfl, by decide, by decide, by decide⟩

/-- Every entry of addEntry's result was in the accumulator or is the new
entry. -/
theorem mem_addEntry (acc : List (String × List ImgEntry)) (key : String)
    (e : ImgEntry) (p : String × List ImgEntry) (hp : p ∈ addEntry acc key e)
    (e2 : ImgEntry) (he : e2 ∈ p.2) :
    (∃ q ∈ acc, e2 ∈ q.2) ∨ e2 = e := by
  induction acc generalizing p with
  | nil =>
      simp [addEntry] at hp
      subst hp
      simp at he
      right
      exact he
  | cons hd rest ih =>
      obtain ⟨k, es⟩ := hd
      unfold addEntry at hp
      by_cases hk : k = key
      · rw [if_pos hk] at hp
        rcases List.mem_cons.mp hp with hp1 | hp2
        · rw [hp1] at he
          simp at he
          rcases he with he | he
          · exact Or.inl ⟨(k, es), by simp, he⟩
          · exact Or.inr he
        · exact Or.inl ⟨p, List.mem_cons_of_mem _ hp2, he⟩
      · rw [if_neg hk] at hp
        rcases List.mem_cons.mp hp with hp1 | hp2
        · rw [hp1] at he
          exact Or.inl ⟨(k, es), by simp, he⟩
        · rcases ih p hp2 he with ⟨q, hq, heq⟩ | hee
          · exact Or.inl ⟨q, List.mem_cons_of_mem _ hq, heq⟩
          · exact Or.inr hee

/-- Entries produced by folding collectStep over a list of images come
from the accumulator or are candidates of those images. -/
theorem collect_foldl_cand (services : List CSvc) (pkgName pkgVersion : String)
    (imgs : List EngImage) :
    ∀ (acc : List (String × List ImgEntry)) (p : String × List ImgEntry),
      p ∈ imgs.foldl (collectStep services pkgName pkgVersion) acc →
      ∀ e ∈ p.2, (∃ q ∈ acc, e ∈ q.2) ∨
        isCandidate services pkgName pkgVersion imgs e := by
  induction imgs with
  | nil =>
      intro acc p hp e he
      exact Or.inl ⟨p, hp, he⟩
  | cons img rest ih =>
      intro acc p hp e he
      rw [List.foldl_cons] at hp
      rcases ih (collectStep services pkgName pkgVersion acc img) p hp e he with
        hin | hcand
      · obtain ⟨q, hq, heq⟩ := hin
        unfold collectStep at hq
        cases htag : imageTag img with
        | none =>
            rw [htag] at hq
            exact Or.inl ⟨q, hq, heq⟩
        | some tag =>
            rw [htag] at hq
            cases hown : getServiceForImage services pkgName img with
            | none =>
                rw [hown] at hq
                exact Or.inl ⟨q, hq, heq⟩
            | some owner =>
                rw [hown] at hq
                have hq2 : q ∈ (if isCurrentImage pkgName pkgVersion img owner = true
                    then acc
                    else addEntry acc (ownerName pkgName owner)
                      ⟨img.RepoTags.headD "", tag⟩) := hq
                by_cases hcur : isCurrentImage pkgName pkgVersion img owner = true
                · rw [if_pos hcur] at hq2
                  exact Or.inl ⟨q, hq2, heq⟩
                · rw [if_neg hcur] at hq2
                  rcases mem_addEntry acc _ _ q hq2 e heq with hacc | hee
                  · exact Or.inl hacc
                  · refine Or.inr ⟨img, by simp, ?_, ?_, owner, hown, by simpa using hcur⟩
                    · rw [hee]
                    · rw [hee, htag]
      · obtain ⟨img2, h1, h2⟩ := hcand
        exact Or.inr ⟨img2, List.mem_cons_of_mem _ h1, h2⟩

/-- Every entry of the collected imageData is a candidate. -/
theorem collect_entries (services : List CSvc) (pkgName pkgVersion : String)
    (images : List EngImage) (p : String × List ImgEntry)
    (hp : p ∈ collectImageData services pkgName pkgVersion images)
    (e : ImgEntry) (he : e ∈ p.2) :
    isCandidate services pkgName pkgVersion images e := by
  rcases collect_foldl_cand services pkgName pkgVersion images [] p hp e he with
    ⟨q, hq, _⟩ | h
  · simp at hq
  · exact h

/-- pruneGroup selects entries of the group. -/
theorem pruneGroup_subset (es : List ImgEntry) (e : ImgEntry)
    (he : e ∈ pruneGroup es) : e ∈ es := by
  unfold pruneGroup at he
  by_cases h : es.length ≤ IMAGES_TO_KEEP - 1
  · rw [if_pos h] at he
    simp at he
  · rw [if_neg h] at he
    exact (List.perm_insertionSort entryLe es).mem_iff.mp (List.mem_of_mem_take he)

/-- The number of entries pruneGroup selects: the group size minus the
retained min(size, IMAGES_TO_KEEP - 1). -/
theorem pruneGroup_length (es : List ImgEntry) :
    (pruneGroup es).length + min es.length (IMAGES_TO_KEEP - 1) = es.length := by
  unfold pruneGroup
  by_cases h : es.length ≤ IMAGES_TO_KEEP - 1
  · rw [if_pos h]
    simp [Nat.min_eq_left h]
  · rw [if_neg h]
    have hlen : (List.insertionSort entryLe es).length = es.length :=
      (List.perm_insertionSort entryLe es).length_eq
    simp [List.length_take, hlen]
    try omega

/-- Removed plus kept entries are exactly the group. -/
theorem pruneGroup_perm (es : List ImgEntry) :
    (pruneGroup es ++ keptGroup es).Perm es := by
  unfold pruneGroup keptGroup
  by_cases h : es.length ≤ IMAGES_TO_KEEP - 1
  · simp [h]
  · rw [if_neg h, if_neg h, List.take_append_drop]
    exact List.perm_insertionSort entryLe es

/-- Every removed entry precedes every kept entry in semver order: the
kept entries are the greatest of the group. -/
theorem pruneGroup_le_kept (es : List ImgEntry) (e : ImgEntry)
    (he : e ∈ pruneGroup es) (k : ImgEntry) (hk : k ∈ keptGroup es) :
    entryLe e k := by
  unfold pruneGroup at he
  unfold keptGroup at hk
  by_cases h : es.length ≤ IMAGES_TO_KEEP - 1
  · rw [if_pos h] at he
    simp at he
  · rw [if_neg h] at he
    rw [if_neg h] at hk
    have hs : List.Sorted entryLe (List.insertionSort entryLe es) :=
      List.sorted_insertionSort entryLe es
    unfold List.Sorted at hs
    rw [← List.take_append_drop (es.length - (IMAGES_TO_KEEP - 1))
      (List.insertionSort entryLe es), List.pairwise_append] at hs
    exact hs.2.2 e he k hk

/-- C7 (amended): everything _cleanupImages selects for removal is a
semver-tagged, owned, non-current image; with distinct image names the
current image and images without a semver-valid tag are never selected;
and within each per-service group the selection removes exactly all but
min(group size, IMAGES_TO_KEEP - 1) entries, keeping precisely the
greatest ones by semantic version.  Images without a semver-valid tag are
outside the scheme entirely, so a service can retain more than
IMAGES_TO_KEEP tagged images (see the counterexample). -/
theorem c7_image_retention (services : List CSvc) (pkgName pkgVersion : String)
    (images : List EngImage) :
    (∀ n ∈ imagesToRemove services pkgName pkgVersion images,
      ∃ e, isCandidate services pkgName pkgVersion images e ∧ e.image = n) ∧
    ((∀ i1 ∈ images, ∀ i2 ∈ images,
        i1.RepoTags.headD "" = i2.RepoTags.headD "" → i1 = i2) →
      ∀ img ∈ images, ∀ o, getServiceForImage services pkgName img = some o →
        isCurrentImage pkgName pkgVersion img o = true →
        img.RepoTags.headD "" ∉ imagesToRemove services pkgName pkgVersion images) ∧
    ((∀ i1 ∈ images, ∀ i2 ∈ images,
        i1.RepoTags.headD "" = i2.RepoTags.headD "" → i1 = i2) →
      ∀ img ∈ images, imageTag img = none →
        img.RepoTags.headD "" ∉ imagesToRemove services pkgName pkgVersion images) ∧
    (∀ p ∈ collectImageData services pkgName pkgVersion images,
      (pruneGroup p.2).length + min p.2.length (IMAGES_TO_KEEP - 1) = p.2.length) ∧
    (∀ p ∈ collectImageData services pkgName pkgVersion images,
      (pruneGroup p.2 ++ keptGroup p.2).Perm p.2) ∧
    (∀ p ∈ collectImageData services pkgName pkgVersion images,
      ∀ e ∈ pruneGroup p.2, ∀ k ∈ keptGroup p.2, entryLe e k) := by
  have hA : ∀ n ∈ imagesToRemove services pkgName pkgVersion images,
      ∃ e, isCandidate services pkgName pkgVersion images e ∧ e.image = n := by
    intro n hn
    unfold imagesToRemove at hn
    rw [List.mem_map] at hn
    obtain ⟨e, hef, rfl⟩ := hn
    rw [List.mem_flatten] at hef
    obtain ⟨l, hl, hel⟩ := hef
    rw [List.mem_map] at hl
    obtain ⟨p, hp, rfl⟩ := hl
    exact ⟨e, collect_entries services pkgName pkgVersion images p hp e
      (pruneGroup_subset p.2 e hel), rfl⟩
  refine ⟨hA, ?_, ?_, ?_, ?_, ?_⟩
  · intro hinj img himg o hown hcur hmem
    obtain ⟨e, hcand, hname⟩ := hA _ hmem
    obtain ⟨img2, himg2, hhead, htag2, o2, hown2, hcur2⟩ := hcand
    have himgeq : img2 = img := hinj img2 himg2 img himg (by rw [hhead, hname])
    rw [himgeq] at hown2
    rw [hown] at hown2
    cases hown2
    rw [himgeq] at hcur2
    rw [hcur] at hcur2
    exact absurd hcur2 (by simp)
  · intro hinj img himg htag hmem
    obtain ⟨e, hcand, hname⟩ := hA _ hmem
    obtain ⟨img2, himg2, hhead, htag2, _⟩ := hcand
    have himgeq : img2 = img := hinj img2 himg2 img himg (by rw [hhead, hname])
    rw [himgeq, htag] at htag2
    exact absurd htag2 (by simp)
  · intro p _
    exact pruneGroup_length p.2
  · intro p _
    exact pruneGroup_perm p.2
  · intro p _
    exact pruneGroup_le_kept p.2

/-- C7 witness: one service at img:1.0.0 with three older semver-tagged
images: exactly the oldest is selected, and the current image's name is
not selected. -/
theorem c7_image_retention_witness :
    imagesToRemove [⟨"web", "img", "1.0.0"⟩] "kiruna" "9.9.9"
      [⟨["img:0.1.0"]⟩, ⟨["img:0.2.0"]⟩, ⟨["img:0.3.0"]⟩, ⟨["img:1.0.0"]⟩] =
      ["img:0.1.0"] ∧
    "img:1.0.0" ∉ imagesToRemove [⟨"web", "img", "1.0.0"⟩] "kiruna" "9.9.9"
      [⟨["img:0.1.0"]⟩, ⟨["img:0.2.0"]⟩, ⟨["img:0.3.0"]⟩, ⟨["img:1.0.0"]⟩] := by
  constructor
  · rfl
  · have h := (c7_image_retention [⟨"web", "img", "1.0.0"⟩] "kiruna" "9.9.9"
      [⟨["img:0.1.0"]⟩, ⟨["img:0.2.0"]⟩, ⟨["img:0.3.0"]⟩, ⟨["img:1.0.0"]⟩]).2.1
      (by decide) ⟨["img:1.0.0"]⟩ (by simp) (.svc ⟨"web", "img", "1.0.0"⟩)
      (by rfl) (by rfl)
    simpa using h

/-- C7 counterexample: a service whose four images carry only non-semver
tags (latest, foo, bar, baz): cleanup selects nothing, so all four tagged
images of the service remain, exceeding IMAGES_TO_KEEP = 3 — the claimed
per-service bound on tagged images fails. -/
theorem c7_counterexample :
    imagesToRemove [⟨"web", "img", "latest"⟩] "kiruna" "1.0.0"
      [⟨["img:latest"]⟩, ⟨["img:foo"]⟩, ⟨["img:bar"]⟩, ⟨["img:baz"]⟩] = [] ∧
    (([⟨["img:latest"]⟩, ⟨["img:foo"]⟩, ⟨["img:bar"]⟩, ⟨["img:baz"]⟩] :
      List EngImage).filter
        (fun i => i.RepoTags.any (fun rt => strStarts rt "img:"))).length = 4 ∧
    IMAGES_TO_KEEP < 4 := by
  refine ⟨by rfl, by rfl, by decide⟩

/-- A key character is not whitespace. -/
theorem isKeyChar_not_space {c : Char} (h : isKeyChar c = true) :
    isSpaceChar c = false := by
  by_contra hs
  have hs2 : isSpaceChar c = true := by simpa using hs
  have hc : c = ' ' ∨ c = '\t' ∨ c = '\n' ∨ c = '\r' ∨ c = '\x0b' ∨ c = '\x0c' := by
    simpa [isSpaceChar, or_assoc] using hs2
  rcases hc with h1 | h1 | h1 | h1 | h1 | h1 <;>
    (subst h1; exact absurd h (by decide))

/-- takeWhile and dropWhile through an all-true list followed by one
failing character. -/
theorem takeWhile_append_last (p : Char → Bool) (l : List Char) (x : Char)
    (hl : ∀ c ∈ l, p c = true) (hx : p x = false) :
    (l ++ [x]).takeWhile p = l ∧ (l ++ [x]).dropWhile p = [x] := by
  induction l with
  | nil => simp [List.takeWhile_cons, List.dropWhile_cons, hx]
  | cons a t ih =>
      have ha : p a = true := hl a (by simp)
      have ht : ∀ c ∈ t, p c = true := fun c hc => hl c (by simp [hc])
      obtain ⟨h1, h2⟩ := ih ht
      constructor
      · simp [List.takeWhile_cons, ha, h1]
      · simp [List.dropWhile_cons, ha, h2]

/-- matchVariable succeeds on the canonical single occurrence, yielding
the key and no remaining text. -/
theorem matchVariable_canonical (k : List Char) (hne : k ≠ [])
    (hk : ∀ c ∈ k, isKeyChar c = true) :
    matchVariable ('$' :: '\x7b' :: (k ++ ['\x7d'])) = some (k, []) := by
  obtain ⟨htake, hdrop⟩ :=
    takeWhile_append_last isKeyChar k '\x7d' hk (by decide)
  cases k with
  | nil => exact absurd rfl hne
  | cons c0 k' =>
      have hc0 : isKeyChar c0 = true := hk c0 (by simp)
      have hs0 : isSpaceChar c0 = false := isKeyChar_not_space hc0
      have hws : ((c0 :: k') ++ ['\x7d']).dropWhile isSpaceChar =
          (c0 :: k') ++ ['\x7d'] := by
        simp [List.dropWhile_cons, hs0]
      simp only [matchVariable, List.cons_append] at *
      simp [hws, htake, hdrop]
      rw [show List.dropWhile isSpaceChar ['\x7d'] = ['\x7d'] from by decide]
      simp

/-- findVariable returns none on dollar-free text. -/
theorem findVariable_none (cs : List Char) (h : ∀ c ∈ cs, c ≠ '$') :
    findVariable cs = none := by
  induction cs with
  | nil => rfl
  | cons c t ih =>
      have hc : c ≠ '$' := h c (by simp)
      have hm : matchVariable (c :: t) = none := by
        cases t with
        | nil => rfl
        | cons c2 t2 => simp [matchVariable, hc]
      rw [findVariable, hm, ih (fun x hx => h x (by simp [hx]))]

/-- C9 (amended): expanding a lone variable occurrence whose key is absent
from the process environment substitutes the empty string and succeeds —
the cited buildApplication variant never raises and never consults the
manifest's Variables. -/
theorem c9_missing_key_empty (env : String → Option String) (k : String)
    (fuel : Nat) (hne : k ≠ "") (hk : ∀ c ∈ k.data, isKeyChar c = true)
    (henv : env k = none) (hfuel : 1 ≤ fuel) :
    expandVariables (configGetValue env) fuel ("$\x7b" ++ k ++ "\x7d") = .ok "" := by
  obtain ⟨f, rfl⟩ : ∃ f, fuel = f + 1 := by
    cases fuel with
    | zero => exact absurd hfuel (by decide)
    | succ f => exact ⟨f, rfl⟩
  have hkd : k.data ≠ [] := by
    intro hnil
    apply hne
    cases k with
    | mk l => simp at hnil; rw [hnil]
  have hdata : ("$\x7b" ++ k ++ "\x7d").data =
      '$' :: '\x7b' :: (k.data ++ ['\x7d']) := by
    simp [String.data_append]
  have hfind : findVariable (('$' : Char) :: '\x7b' :: (k.data ++ ['\x7d'])) =
      some ([], k.data, []) := by
    rw [findVariable, matchVariable_canonical k.data hkd hk]
  have hget : configGetValue env (String.mk k.data) = .ok "" := by
    have hmk : String.mk k.data = k := by cases k; rfl
    rw [hmk]
    simp [configGetValue, henv]
  unfold expandVariables
  rw [hdata, expandLoop, hfind]
  simp only []
  rw [hget]
  simp only []
  rw [expandLoop]
  rfl

/-- C9 witness: the amended theorem at the key FOO with an empty process
environment. -/
theorem c9_missing_key_empty_witness :
    expandVariables (configGetValue (fun _ => none)) 8 ("$\x7b" ++ "FOO" ++ "\x7d") =
      .ok "" :=
  c9_missing_key_empty (fun _ => none) "FOO" 8 (by decide) (by decide) rfl (by decide)

/-- C9 counterexample: the claim says a key missing from the environment
raises an error; instead the cited variant substitutes the empty string
and the expansion succeeds. -/
theorem c9_counterexample :
    expandVariables (configGetValue (fun _ => none)) 8 "$\x7bFOO\x7d" = .ok "" := by
  rfl

/-- A successful Except-mapM maps every element to a successful value that
appears in the output. -/
theorem mapM_ok_mem {α β : Type} (f : α → Except String β) (l : List α)
    (out : List β) (h : l.mapM f = .ok out) :
    ∀ a ∈ l, ∃ b ∈ out, f a = .ok b := by
  induction l generalizing out with
  | nil =>
      intro a ha
      exact absurd ha (List.not_mem_nil a)
  | cons x t ih =>
      intro a ha
      rw [List.mapM_cons] at h
      cases hfx : f x with
      | error e =>
          rw [hfx] at h
          simp [Bind.bind, Except.bind] at h
      | ok b =>
          rw [hfx] at h
          cases hmt : t.mapM f with
          | error e =>
              rw [hmt] at h
              simp [Bind.bind, Except.bind] at h
          | ok bs =>
              rw [hmt] at h
              simp only [Bind.bind, Except.bind, Pure.pure, Except.pure] at h
              have hout : out = b :: bs := by
                cases h
                rfl
              subst hout
              rcases List.mem_cons.mp ha with rfl | hat
              · exact ⟨b, by simp, hfx⟩
              · obtain ⟨bb, hbb, hfb⟩ := ih bs hmt a hat
                exact ⟨bb, by simp [hbb], hfb⟩

/-- C10: a service with an empty containers list makes getFirstContainerId
throw; consequently the Links construction of any service depending on it
cannot succeed; and when the dependency does have containers, the entry
linked under the alias is the computed canonical name of replica index 0,
regardless of which engine-reported ids the containers list holds. -/
theorem c10_first_container_links :
    (∀ (ver : String) (s : P1Service), s.containers = [] →
      getFirstContainerId ver s =
        .error ("No containers exist in service: " ++ s.name)) ∧
    (∀ (services : List P1Service) (ver : String) (s t : P1Service)
      (deps : List String) (d : String),
      s.dependencies = some deps → d ∈ deps →
      getService services (splitDependencyIntoLink d).1 = .ok t →
      t.containers = [] →
      ∀ res, buildLinks services ver s ≠ .ok res) ∧
    (∀ (services : List P1Service) (ver : String) (s t : P1Service)
      (deps : List String) (d : String) (links : List String),
      s.dependencies = some deps → d ∈ deps →
      getService services (splitDependencyIntoLink d).1 = .ok t →
      t.containers ≠ [] →
      buildLinks services ver s = .ok (some links) →
      (createContainerName t.name t.serialized ver 0 true ++ ":" ++
        (splitDependencyIntoLink d).2) ∈ links) := by
  refine ⟨?_, ?_, ?_⟩
  · intro ver s hs
    unfold getFirstContainerId
    rw [if_pos (by simp [hs])]
  · intro services ver s t deps d hdeps hd hget hempty res hok
    unfold buildLinks at hok
    rw [hdeps] at hok
    have hok2 : Except.map some (deps.mapM (linkFor services ver)) =
        Except.ok res := hok
    cases hM : deps.mapM (linkFor services ver) with
    | error e => rw [hM] at hok2; simp [Except.map] at hok2
    | ok links =>
        obtain ⟨b, _, hfb⟩ := mapM_ok_mem _ deps links hM d hd
        have hfb2 : (match getService services (splitDependencyIntoLink d).1 with
            | Except.error e => Except.error e
            | Except.ok service =>
                match getFirstContainerId ver service with
                | Except.error e => Except.error e
                | Except.ok containerId =>
                    Except.ok (containerId ++ ":" ++ (splitDependencyIntoLink d).2)) =
            Except.ok b := hfb
        rw [hget] at hfb2
        have hfb3 : (match getFirstContainerId ver t with
            | Except.error e => (Except.error e : Except String String)
            | Except.ok containerId =>
                Except.ok (containerId ++ ":" ++ (splitDependencyIntoLink d).2)) =
            Except.ok b := hfb2
        have hfcid : getFirstContainerId ver t =
            .error ("No containers exist in service: " ++ t.name) := by
          unfold getFirstContainerId
          rw [if_pos (by simp [hempty])]
        rw [hfcid] at hfb3
        exact absurd hfb3 (by simp)
  · intro services ver s t deps d links hdeps hd hget hne hok
    unfold buildLinks at hok
    rw [hdeps] at hok
    have hok2 : Except.map some (deps.mapM (linkFor services ver)) =
        Except.ok (some links) := hok
    cases hM : deps.mapM (linkFor services ver) with
    | error e => rw [hM] at hok2; simp [Except.map] at hok2
    | ok links2 =>
        rw [hM] at hok2
        have hl2 : links2 = links := by
          simp [Except.map] at hok2
          exact hok2
        subst hl2
        obtain ⟨b, hbmem, hfb⟩ := mapM_ok_mem _ deps links2 hM d hd
        have hfb2 : (match getService services (splitDependencyIntoLink d).1 with
            | Except.error e => Except.error e
            | Except.ok service =>
                match getFirstContainerId ver service with
                | Except.error e => Except.error e
                | Except.ok containerId =>
                    Except.ok (containerId ++ ":" ++ (splitDependencyIntoLink d).2)) =
            Except.ok b := hfb
        rw [hget] at hfb2
        have hfb3 : (match getFirstContainerId ver t with
            | Except.error e => (Except.error e : Except String String)
            | Except.ok containerId =>
                Except.ok (containerId ++ ":" ++ (splitDependencyIntoLink d).2)) =
            Except.ok b := hfb2
        have hfcid : getFirstContainerId ver t =
            .ok (createContainerName t.name t.serialized ver 0 true) := by
          unfold getFirstContainerId
          rw [if_neg (by simp [hne])]
        rw [hfcid] at hfb3
        have hb : b = createContainerName t.name t.serialized ver 0 true ++ ":" ++
            (splitDependencyIntoLink d).2 := by
          cases hfb3
          rfl
        rw [← hb]
        exact hbmem

/-- C10 witness: the three parts of the theorem at concrete services — an
empty dependency makes the construction fail, a populated one links the
canonical name of replica 0 under the alias. -/
theorem c10_first_container_links_witness :
    getFirstContainerId "1.0.0" ⟨"empty", "x", none, []⟩ =
      .error ("No containers exist in service: " ++ "empty") ∧
    buildLinks [⟨"db", "x", none, []⟩] "1.0.0" ⟨"app", "y", some ["db:alias"], []⟩ ≠
      .ok (some []) ∧
    (createContainerName "db" "x" "1.0.0" 0 true ++ ":" ++
        (splitDependencyIntoLink "db:alias").2) ∈
      [createContainerName "db" "x" "1.0.0" 0 true ++ ":" ++ "alias"] := by
  obtain ⟨h1, h2, h3⟩ := c10_first_container_links
  refine ⟨h1 "1.0.0" ⟨"empty", "x", none, []⟩ rfl, ?_, ?_⟩
  · exact h2 [⟨"db", "x", none, []⟩] "1.0.0" ⟨"app", "y", some ["db:alias"], []⟩
      ⟨"db", "x", none, []⟩ ["db:alias"] "db:alias" rfl (by simp) rfl rfl (some [])
  · exact h3 [⟨"db", "x", none, ["cid"]⟩] "1.0.0" ⟨"app", "y", some ["db:alias"], []⟩
      ⟨"db", "x", none, ["cid"]⟩ ["db:alias"] "db:alias"
      [createContainerName "db" "x" "1.0.0" 0 true ++ ":" ++ "alias"]
      rfl (by simp) rfl (by simp) rfl

/-- Helper: the first index of an element that is preceded only by
elements failing the predicate. -/
theorem findIdx?_append_cons {α : Type} (p : α → Bool) (l1 l2 : List α) (a : α)
    (h : ∀ x ∈ l1, p x = false) (ha : p a = true) :
    (l1 ++ a :: l2).findIdx? p = some l1.length := by
  induction l1 with
  | nil => simp [List.findIdx?, ha]
  | cons b t ih =>
      have hb : p b = false := h b (by simp)
      have ht : ∀ x ∈ t, p x = false := fun x hx => h x (by simp [hx])
      simp [List.findIdx?_cons, hb, ih ht]

/-- C8 counterexample: on the plain-port string "80" the splitting function
of the cited variants returns a binding with no HostIp field at all, not
the claimed default HostIp "0.0.0.0". -/
theorem c8_counterexample :
    splitHostPort (.str "80") = .binding none "80" ∧
    splitHostPort (.str "80") ≠ .binding (some "0.0.0.0") "80" := by
  constructor
  · rfl
  · decide

/-- C8 (amended): splitHostPort maps an "ip:port" string (first colon at a
positive index) to a binding carrying that HostIp and HostPort, maps a
colon-free string to a binding with only HostPort (no HostIp is defaulted),
and maps a number to a binding with only its decimal HostPort. -/
theorem c8_split_host_port (ip p : String) (n : Nat)
    (hip : ip ≠ "") (hipc : ':' ∉ ip.data) (hpc : ':' ∉ p.data) :
    splitHostPort (.str (ip ++ ":" ++ p)) = .binding (some ip) p ∧
    splitHostPort (.str p) = .binding none p ∧
    splitHostPort (.num n) = .binding none (toString n) := by
  have hdata : (ip ++ ":" ++ p).data = ip.data ++ ':' :: p.data := by
    simp [String.data_append]
  have hlen : 0 < ip.data.length := by
    rcases ip with ⟨l⟩
    cases l with
    | nil => exact absurd rfl hip
    | cons c t => simp
  have hfind : (ip.data ++ ':' :: p.data).findIdx? (fun a => a = ':') = some ip.data.length := by
    apply findIdx?_append_cons
    · intro x hx
      have : x ≠ ':' := fun he => hipc (he ▸ hx)
      simp [this]
    · simp
  refine ⟨?_, ?_, rfl⟩
  · simp only [splitHostPort, hdata, hfind]
    rw [if_pos hlen]
    have htake : (ip.data ++ ':' :: p.data).take ip.data.length = ip.data :=
      List.take_left ip.data (':' :: p.data)
    have hdrop : (ip.data ++ ':' :: p.data).drop (ip.data.length + 1) = p.data := by
      rw [List.drop_append]
      rfl
    rw [htake, hdrop]
  · have hfind2 : p.data.findIdx? (fun a => a = ':') = none := by
      rw [List.findIdx?_eq_none_iff]
      intro x hx
      have : x ≠ ':' := fun he => hpc (he ▸ hx)
      simp [this]
    simp [splitHostPort, hfind2]

/-- C8 witness: the amended theorem applied to the spec's three inputs. -/
theorem c8_split_host_port_witness :
    splitHostPort (.str ("1.2.3.4" ++ ":" ++ "80")) = .binding (some "1.2.3.4") "80" ∧
    splitHostPort (.str "80") = .binding none "80" ∧
    splitHostPort (.num 80) = .binding none "80" :=
  c8_split_host_port "1.2.3.4" "80" 80 (by decide) (by decide) (by decide)

/-- Per-test healthy component agrees with the specification predicate. -/
theorem checkHttp_snd (t : HttpTest) (data : NetworkData)
    (get : String → Except Unit Nat) :
    (checkHttp t data get).2 = probeOk data get (.http t) := by
  unfold checkHttp probeOk
  cases hm : getHostPort (jsOr t.Port "80") data with
  | none => simp [hm]
  | some hp =>
      by_cases he : hp = ""
      · simp [hm, he]
      · cases hg : get (jsOr t.Protocol "http" ++ "://" ++ t.Ip ++ ":" ++ hp ++
            jsOr t.Path "/") with
        | error e => simp [hm, he, hg]
        | ok code => by_cases hc : code = 200 <;> simp [hm, he, hg, hc]

/-- Per-test error component agrees with the specification predicate. -/
theorem checkHttp_fst (t : HttpTest) (data : NetworkData)
    (get : String → Except Unit Nat) :
    ((checkHttp t data get).1 = none ↔ probeGetErrors data get (.http t) = false) := by
  unfold checkHttp probeGetErrors
  cases hm : getHostPort (jsOr t.Port "80") data with
  | none => simp [hm]
  | some hp =>
      by_cases he : hp = ""
      · simp [hm, he]
      · cases hg : get (jsOr t.Protocol "http" ++ "://" ++ t.Ip ++ ":" ++ hp ++
            jsOr t.Path "/") with
        | error e => simp [hm, he, hg]
        | ok code => by_cases hc : code = 200 <;> simp [hm, he, hg, hc]

/-- A _checkHttp call that surfaces an error reports unhealthy. -/
theorem checkHttp_err_snd (t : HttpTest) (data : NetworkData)
    (get : String → Except Unit Nat)
    (h : (checkHttp t data get).1 ≠ none) :
    (checkHttp t data get).2 = false := by
  simp only [checkHttp] at h ⊢
  cases hm : getHostPort (jsOr t.Port "80") data with
  | none => simp [hm]
  | some hp =>
      rw [hm] at h
      by_cases he : hp = ""
      · simp [he]
      · simp only [he, if_false] at h ⊢
        cases hg : get (jsOr t.Protocol "http" ++ "://" ++ t.Ip ++ ":" ++ hp ++
            jsOr t.Path "/") with
        | error e => simp [hg]
        | ok code =>
            rw [hg] at h
            by_cases hc : code = 200 <;> simp [hc] at h

/-- Per-test healthy component of the iterator agrees with probeOk. -/
theorem runTest_snd (data : NetworkData) (get : String → Except Unit Nat)
    (test : HealthTest) :
    (runTest data get test).2 = probeOk data get test := by
  cases test with
  | unknown => simp [runTest, probeOk]
  | http t => exact checkHttp_snd t data get

/-- Per-test error component of the iterator agrees with probeGetErrors. -/
theorem runTest_fst (data : NetworkData) (get : String → Except Unit Nat)
    (test : HealthTest) :
    ((runTest data get test).1 = none ↔ probeGetErrors data get test = false) := by
  cases test with
  | unknown => simp [runTest, probeGetErrors]
  | http t => exact checkHttp_fst t data get

/-- Helper: all over a map with a type-changing function. -/
theorem all_map_general {α β : Type} (f : α → β) (p : β → Bool) (l : List α) :
    (l.map f).all p = l.all (fun a => p (f a)) := by
  induction l with
  | nil => rfl
  | cons a t ih => simp [ih]

/-- A probe that surfaces a GET error is not a successful probe. -/
theorem probeGetErrors_not_ok (data : NetworkData) (get : String → Except Unit Nat)
    (t : HealthTest) (h : probeGetErrors data get t = true) :
    probeOk data get t = false := by
  cases t with
  | unknown => simp [probeGetErrors] at h
  | http ht =>
      have h1 : (checkHttp ht data get).1 ≠ none := by
        intro hn
        rw [(checkHttp_fst ht data get).mp hn] at h
        exact Bool.false_ne_true h
      rw [← checkHttp_snd ht data get]
      exact checkHttp_err_snd ht data get h1

/-- C6: Health.check reports healthy exactly when every configured probe
succeeds (empty list: healthy; unknown kinds: pass; Http: resolved host
port and status 200); it surfaces an error exactly when some Http probe
with a resolved host port has an erroring GET; and a probe whose host port
does not resolve yields (no error, unhealthy). -/
theorem c6_health_check (tests : List HealthTest) (data : NetworkData)
    (get : String → Except Unit Nat) :
    (healthCheck tests data get).2 = tests.all (probeOk data get) ∧
    ((healthCheck tests data get).1 = none ↔
      ∀ t ∈ tests, probeGetErrors data get t = false) ∧
    healthCheck [] data get = (none, true) ∧
    (∀ t : HttpTest, getHostPort (jsOr t.Port "80") data = none →
      checkHttp t data get = (none, false)) := by
  have hfe : ((healthCheck tests data get).1 = none ↔
      ∀ t ∈ tests, probeGetErrors data get t = false) := by
    unfold healthCheck
    cases hE : ((tests.map (runTest data get)).filterMap (fun r => r.1)).head? with
    | none =>
        simp only [hE]
        rw [List.head?_eq_none_iff, List.filterMap_eq_nil_iff] at hE
        constructor
        · intro _ t ht
          exact (runTest_fst data get t).mp (hE _ (List.mem_map_of_mem _ ht))
        · intro _
          simp
    | some e =>
        simp only [hE]
        rw [List.head?_eq_some_iff] at hE
        obtain ⟨tl, htl⟩ := hE
        have hmem : e ∈
            (tests.map (runTest data get)).filterMap (fun r => r.1) := by
          rw [htl]; simp
        rw [List.mem_filterMap] at hmem
        obtain ⟨r, hr, hre⟩ := hmem
        rw [List.mem_map] at hr
        obtain ⟨t, ht, hgt⟩ := hr
        constructor
        · intro h
          exact absurd h (by simp)
        · intro hall
          have hnone := (runTest_fst data get t).mpr (hall t ht)
          rw [hgt] at hnone
          rw [hnone] at hre
          exact absurd hre (by simp)
  refine ⟨?_, hfe, by simp [healthCheck], ?_⟩
  · unfold healthCheck
    cases hE : ((tests.map (runTest data get)).filterMap (fun r => r.1)).head? with
    | none =>
        simp only [hE]
        have hco : (fun a => (runTest data get a).2) = probeOk data get :=
          funext (fun t => runTest_snd data get t)
        rw [all_map_general, hco]
    | some e =>
        simp only [hE]
        rw [List.head?_eq_some_iff] at hE
        obtain ⟨tl, htl⟩ := hE
        have hmem : e ∈
            (tests.map (runTest data get)).filterMap (fun r => r.1) := by
          rw [htl]; simp
        rw [List.mem_filterMap] at hmem
        obtain ⟨r, hr, hre⟩ := hmem
        rw [List.mem_map] at hr
        obtain ⟨t, ht, hgt⟩ := hr
        have herr : probeGetErrors data get t = true := by
          by_contra hne
          have hnone := (runTest_fst data get t).mpr (by simpa using hne)
          rw [hgt] at hnone
          rw [hnone] at hre
          exact absurd hre (by simp)
        have hok := probeGetErrors_not_ok data get t herr
        symm
        rw [List.all_eq_false]
        exact ⟨t, ht, by simp [hok]⟩
  · intro t hm
    simp only [checkHttp]
    rw [hm]


/-- C6 witness: a probe list with one unknown kind, one Http probe with an
unresolvable port, and one resolvable Http probe answering 200, over a
concrete GET oracle. -/
theorem c6_health_check_witness :
    (healthCheck
        [.unknown,
         .http ⟨some "9999/tcp", "1.2.3.4", none, none⟩,
         .http ⟨some "80/tcp", "1.2.3.4", none, none⟩]
        ⟨[("80/tcp", ["8080"])]⟩
        (fun u => if u = "http://1.2.3.4:8080/" then .ok 200 else .error ())).2 =
      ([.unknown,
        .http ⟨some "9999/tcp", "1.2.3.4", none, none⟩,
        .http ⟨some "80/tcp", "1.2.3.4", none, none⟩] : List HealthTest).all
        (probeOk ⟨[("80/tcp", ["8080"])]⟩
          (fun u => if u = "http://1.2.3.4:8080/" then .ok 200 else .error ())) :=
  (c6_health_check _ _ _).1

/-- C3: from a started, not-stopped runner with a zero failure count,
five consecutive ticks that inspect a running container but see an
unhealthy probe behave as: the first four ticks issue no stop and emit no
event, each leaving the watch interval at 250 ms and counting one more
failure; the fifth tick issues the engine stop and emits the single
stopped event, leaving the runner stopped — independently of the error
each potential stop call would return (the source ignores it). -/
theorem c3_health_budget (s0 : CState) (e1 e2 e3 e4 e5 : Bool)
    (hst : s0.started = true) (hsp : s0.stopped = false)
    (hf : s0.healthFailures = 0) :
    (checkHealth s0 (.ok true) false e1).stopRequested = false ∧
    (checkHealth s0 (.ok true) false e1).emitStopped = false ∧
    (checkHealth s0 (.ok true) false e1).emitStarted = false ∧
    (checkHealth s0 (.ok true) false e1).state.watchTimeout = LOW_WATCH_TIMEOUT ∧
    (checkHealth s0 (.ok true) false e1).state.healthFailures = 1 ∧
    (unhealthyTicks s0 [e1, e2, e3, e4]).map
        (fun t => (t.stopRequested, t.emitStopped, t.state.watchTimeout)) =
      [(false, false, 250), (false, false, 250), (false, false, 250), (false, false, 250)] ∧
    (unhealthyTicks s0 [e1, e2, e3, e4]).map (fun t => t.state.healthFailures) =
      [1, 2, 3, 4] ∧
    (unhealthyTicks s0 [e1, e2, e3, e4, e5]).map
        (fun t => (t.stopRequested, t.emitStopped)) =
      [(false, false), (false, false), (false, false), (false, false), (true, true)] ∧
    ((unhealthyTicks s0 [e1, e2, e3, e4, e5]).map (fun t => t.state.stopped)).getLast? =
      some true := by
  obtain ⟨st, sp, so, hfail, w⟩ := s0
  simp only [CState.started, CState.stopped, CState.healthFailures] at hst hsp hf
  subst hst hsp hf
  simp [unhealthyTicks, checkHealth, MAX_HEALTH_FAILURES, LOW_WATCH_TIMEOUT, WATCH_TIMEOUT]

/-- C3 witness: the budget theorem at a concrete started runner state and
concrete stop-error outcomes. -/
theorem c3_health_budget_witness :
    ((unhealthyTicks ⟨true, false, false, 0, 15000⟩ [true, false, true, false, true]).map
        (fun t => (t.stopRequested, t.emitStopped)) =
      [(false, false), (false, false), (false, false), (false, false), (true, true)]) :=
  (c3_health_budget ⟨true, false, false, 0, 15000⟩ true false true false true
    rfl rfl rfl).2.2.2.2.2.2.2.1

/-- C5: stopAndRemoveContainer issues a stop exactly when the first inspect
reports Running; when every engine result is a success or a noSuchContainer
error the caller receives no error; a non-noSuchContainer error at any
executed step is surfaced; and remove is issued exactly when the stop block
was clean and the re-inspect succeeded. -/
theorem c5_stop_and_remove (i1 : EngRes InspectInfo) (st : EngRes Unit)
    (i2 : EngRes InspectInfo) (rm : EngRes Unit) :
    ((stopAndRemoveContainer i1 st i2 rm).stopCalled = true ↔
      ∃ d, i1 = .ok d ∧ d.Running = true) ∧
    (benign i1 → benign st → benign i2 → benign rm →
      (stopAndRemoveContainer i1 st i2 rm).error = none) ∧
    (i1 = .err false → (stopAndRemoveContainer i1 st i2 rm).error = some false) ∧
    (∀ d, i1 = .ok d → d.Running = true → st = .err false →
      (stopAndRemoveContainer i1 st i2 rm).error = some false) ∧
    (step1Clean i1 st → i2 = .err false →
      (stopAndRemoveContainer i1 st i2 rm).error = some false) ∧
    (step1Clean i1 st → ∀ d, i2 = .ok d → rm = .err false →
      (stopAndRemoveContainer i1 st i2 rm).error = some false) ∧
    ((stopAndRemoveContainer i1 st i2 rm).removeCalled = true ↔
      step1Clean i1 st ∧ ∃ d, i2 = .ok d) := by
  rcases i1 with d1 | ns1 <;> rcases st with u1 | nst <;>
    rcases i2 with d2 | ns2 <;> rcases rm with u2 | nrm <;>
    first
    | (rcases d1 with ⟨r1, n1⟩
       rcases r1 <;>
         first
         | (rcases nst <;>
             simp_all [stopAndRemoveContainer, stopStep, removeStep, benign, step1Clean] <;>
             (try rcases ns2) <;> (try rcases nrm) <;>
             simp_all [stopAndRemoveContainer, stopStep, removeStep, benign, step1Clean])
         | ((try rcases ns2) <;> (try rcases nrm) <;>
             simp_all [stopAndRemoveContainer, stopStep, removeStep, benign, step1Clean]))
    | (rcases ns1 <;> (try rcases ns2) <;> (try rcases nrm) <;> (try rcases nst) <;>
        simp_all [stopAndRemoveContainer, stopStep, removeStep, benign, step1Clean])

/-- C5 witness: a concrete run in which the container vanished between
inspect and stop (noSuchContainer on stop and on the second inspect):
the caller sees no error and no remove is issued. -/
theorem c5_stop_and_remove_witness :
    (stopAndRemoveContainer (.ok ⟨true, "c"⟩) (.err true) (.err true) (.ok ())).error = none ∧
    (stopAndRemoveContainer (.ok ⟨true, "c"⟩) (.err true) (.err true) (.ok ())).stopCalled = true := by
  have h := c5_stop_and_remove (.ok ⟨true, "c"⟩) (.err true) (.err true) (.ok ())
  refine ⟨h.2.1 trivial rfl rfl trivial, h.1.mpr ⟨⟨true, "c"⟩, rfl, rfl⟩⟩

end Kiruna
